import Mathlib

/-!
Shallow embedding of the branch-list interaction engine of `git-branch-man`
(`src/components/branch_list.rs` and `src/git/git_wrapper.rs`), together with
theorems checking the specification's claims about it.

Modelling conventions:
* Rust `usize` values are modelled as `Nat`.  The only place the code can
  underflow is subtraction by one (`len() - 1`, `selected_index -= 1`); a
  release build wraps this modulo `2 ^ 64`, so subtraction by one is modelled
  by `usub1`, which sends `0` to `2 ^ 64 - 1` exactly as the machine does (a
  debug build would panic at the same inputs).  The addition
  `selected_index += 1` only runs under guards that keep it far below the
  `usize` limit, so it is modelled as plain `+ 1`.
* Backend git calls are external effects; their outcomes enter the embedding
  as explicit parameters (`Bool` or `Except String Unit` values) so a theorem
  can quantify over every possible backend behaviour.
* Render-only state (`list_state` and the `branch_input` /
  `instruction_footer` sub-components) is omitted: the embedded functions
  never read it and no claim mentions it.
-/

/-- The `usize` width: values live below `2 ^ 64`. -/
def USIZE : Nat := 2 ^ 64

/-- Wrapping "minus one" on `usize` (release-build semantics: `0 - 1` wraps
around to `2 ^ 64 - 1`). -/
def usub1 (a : Nat) : Nat := if a = 0 then USIZE - 1 else a - 1

/-- `GitRemoteBranch` from `src/git/git_wrapper.rs`. -/
structure GitRemoteBranch where
  name : String
deriving DecidableEq, Repr

/-- `GitBranch` from `src/git/git_wrapper.rs`. -/
structure GitBranch where
  name : String
  is_head : Bool
  upstream : Option GitRemoteBranch
deriving DecidableEq, Repr

/-- `BranchItem`: one branch plus its UI flags.  Its defining file
(`src/components/branch_list/branch_item.rs`) is not among the sources; the
field list is reconstructed from its uses in `branch_list.rs` and the spec's
data model (§3). -/
structure BranchItem where
  branch : GitBranch
  staged_for_deletion : Bool
  staged_for_creation : Bool
  is_valid_name : Bool
deriving DecidableEq, Repr

/-- Modelled from the spec: `BranchItem::new(branch, valid)` (its defining
file `branch_item.rs` is missing from the sources).  A freshly built item
carries no staging flags; the second argument is the name-validity flag
(§3: `is_valid_name` is meaningful only while `staged_for_creation`). -/
def BranchItem.new (branch : GitBranch) (valid : Bool) : BranchItem :=
  { branch := branch
    staged_for_deletion := false
    staged_for_creation := false
    is_valid_name := valid }

/-- Modelled from the spec: `BranchItem::stage_for_deletion(flag)` sets the
`staged_for_deletion` flag to the given value (`branch_item.rs` is missing
from the sources; §3 calls this the staging toggle). -/
def BranchItem.stage_for_deletion (item : BranchItem) (stage : Bool) : BranchItem :=
  { item with staged_for_deletion := stage }

/-- The `Mode` enum of `branch_list.rs`. -/
inductive Mode where
  | Selection
  | Input
deriving DecidableEq, Repr

/-- The `BranchList` state (`branch_list.rs`), restricted to the fields the
embedded operations touch: `mode`, `error`, `branches`, `selected_index`. -/
structure BranchList where
  mode : Mode
  error : Option String
  branches : List BranchItem
  selected_index : Nat
deriving DecidableEq, Repr

/-- `BranchList::select_previous` (`branch_list.rs` lines 73-83): on index 0
jump to `len - 1`; clamp an out-of-range index to `len - 1`; otherwise step
back by one.  Both `len - 1` computations go through the wrapping `usub1`. -/
def BranchList.select_previous (s : BranchList) : BranchList :=
  if s.selected_index = 0 then
    { s with selected_index := usub1 s.branches.length }
  else if s.branches.length ≤ s.selected_index then
    { s with selected_index := usub1 s.branches.length }
  else
    { s with selected_index := usub1 s.selected_index }

/-- `BranchList::select_next` (`branch_list.rs` lines 85-95): on index
`len - 1` wrap to 0; send an out-of-range index to 0; otherwise step forward
by one. -/
def BranchList.select_next (s : BranchList) : BranchList :=
  if s.selected_index = usub1 s.branches.length then
    { s with selected_index := 0 }
  else if s.branches.length ≤ s.selected_index then
    { s with selected_index := 0 }
  else
    { s with selected_index := s.selected_index + 1 }

/-- `BranchList::get_selected_branch`. -/
def BranchList.get_selected_branch (s : BranchList) : Option BranchItem :=
  s.branches[s.selected_index]?

/-- `BranchList::stage_selected_for_deletion` (`branch_list.rs` lines
114-124): no selected item or a head selected item leaves the state alone;
otherwise the selected item's staging flag is set to `stage`. -/
def BranchList.stage_selected_for_deletion (s : BranchList) (stage : Bool) : BranchList :=
  match s.branches[s.selected_index]? with
  | none => s
  | some selected =>
    if selected.branch.is_head then s
    else
      { s with
        branches := s.branches.set s.selected_index (selected.stage_for_deletion stage) }

/-- `BranchList::deleted_selected` (sic, `branch_list.rs` lines 126-140).
`delete_ok` is the outcome of the backend `git_delete_branch` call.  The
second component is the `Result` the Rust method returns: both the
no-selection path and the backend-failure path return `Ok(())`, so the
caller's `maybe_handle_git_error` never receives an error from this method. -/
def BranchList.deleted_selected (s : BranchList) (delete_ok : Bool) :
    BranchList × Except String Unit :=
  match s.branches[s.selected_index]? with
  | none => (s, Except.ok ())
  | some _ =>
    if delete_ok then
      let after := s.branches.eraseIdx s.selected_index
      let sel :=
        if after.length ≤ s.selected_index then usub1 s.selected_index
        else s.selected_index
      ({ s with branches := after, selected_index := sel }, Except.ok ())
    else (s, Except.ok ())

/-- Whether the branch at index `i` is staged for deletion: the loop in
`delete_staged_branches` reads `self.branches[branch_index].staged_for_deletion`
for every `branch_index` below `len` (all accesses in bounds). -/
def stagedAt (l : List BranchItem) (i : Nat) : Bool :=
  match l[i]? with
  | some b => b.staged_for_deletion
  | none => false

/-- `BranchList::delete_staged_branches` (`branch_list.rs` lines 142-170).
`delete_ok i` is the backend outcome of the deletion request for the branch at
index `i` (a request is only issued for staged branches; a failed request only
skips that index).  The collected indexes are in increasing order; the code
reverses them and erases back-to-front.  The final fixup of `selected_index`
is exactly the source's: clamp to `len - 1` (wrapping when the list emptied)
when out of range, otherwise decrement a nonzero index. -/
def BranchList.delete_staged_branches (s : BranchList) (delete_ok : Nat → Bool) :
    BranchList × Except String Unit :=
  let indexes_to_delete :=
    (List.range s.branches.length).filter fun i => stagedAt s.branches i && delete_ok i
  let after := indexes_to_delete.reverse.foldl List.eraseIdx s.branches
  let sel :=
    if after.length ≤ s.selected_index then usub1 after.length
    else if s.selected_index ≠ 0 then usub1 s.selected_index
    else s.selected_index
  ({ s with branches := after, selected_index := sel }, Except.ok ())

/-- The comparison `sort_by(|a, b| a.branch.name.cmp(&b.branch.name))` uses:
Rust compares the UTF-8 bytes of the names, which for valid Unicode coincides
with the code-point order of Lean's `String` `≤`. -/
def branchLe (a b : BranchItem) : Bool := a.branch.name ≤ b.branch.name

/-- The body of the `for existing_branch in self.branches.iter_mut()` loop at
the end of `create_branch` (and of `checkout_selected`): set `is_head` exactly
on the items whose name matches the checked-out name. -/
def setHeadByName (name : String) (bi : BranchItem) : BranchItem :=
  { bi with branch := { bi.branch with is_head := bi.branch.name == name } }

/-- The item `create_branch` pushes:
`BranchItem::new(GitBranch { name, is_head: false, upstream: None }, true)`. -/
def createdItem (name : String) : BranchItem :=
  BranchItem.new { name := name, is_head := false, upstream := none } true

/-- `BranchList::create_branch` (`branch_list.rs` lines 172-183).
`create_res` / `checkout_res` are the outcomes of the two backend calls
(`git_create_branch`, then `git_checkout_branch_from_name`); the `?` operator
in the source propagates a failure immediately, abandoning the rest of the
method.  Rust's `sort_by` is a stable merge sort, modelled by
`List.mergeSort`. -/
def BranchList.create_branch (s : BranchList) (name : String)
    (create_res checkout_res : Except String Unit) :
    BranchList × Except String Unit :=
  match create_res with
  | Except.error e => (s, Except.error e)
  | Except.ok _ =>
    let sorted := (s.branches ++ [createdItem name]).mergeSort branchLe
    match checkout_res with
    | Except.error e => ({ s with branches := sorted }, Except.error e)
    | Except.ok _ =>
      let with_head := sorted.map (setHeadByName name)
      let sel := (with_head.findIdx? fun b => b.branch.name == name).getD 0
      ({ s with branches := with_head, selected_index := sel }, Except.ok ())

/-- `BranchList::maybe_handle_git_error` (`branch_list.rs` lines 185-192):
a failed operation's display message is recorded in the error slot; a
successful one leaves the slot alone. -/
def BranchList.maybe_handle_git_error (s : BranchList) (res : Except String Unit) :
    BranchList :=
  match res with
  | Except.ok _ => s
  | Except.error e => { s with error := some e }

/-- The `Action::DeleteBranch` arm of `BranchList::update`: run
`deleted_selected` and hand the `Result` it returns to
`maybe_handle_git_error`. -/
def BranchList.update_delete_branch (s : BranchList) (delete_ok : Bool) : BranchList :=
  let r := s.deleted_selected delete_ok
  r.1.maybe_handle_git_error r.2

/-- The decoded output of a finished `git` process: `std::process::Output`
with `stdout` / `stderr` already decoded from UTF-8 (the claims under study do
not concern invalid-UTF-8 outputs). -/
structure ProcessOutput where
  status_success : Bool
  stdout : String
  stderr : String
deriving DecidableEq, Repr

/-- `run_git_command` from `src/git/git_wrapper.rs` (lines 115-134).  `spawn`
is the result of `Command::new("git").args(args).output()`: `Except.error`
when the process could not be started at all, otherwise its output.  An error
is produced only when the exit status is unsuccessful AND stderr is
non-empty; otherwise stdout is returned as success. -/
def run_git_command (spawn : Except String ProcessOutput) : Except String String :=
  match spawn with
  | Except.error err => Except.error err
  | Except.ok output =>
    if !output.status_success && !(output.stderr == "") then Except.error output.stderr
    else Except.ok output.stdout

/-- `git_delete_branch` (`git_wrapper.rs` lines 110-113): run
`git branch -D <name>` through `run_git_command`, discarding the stdout. -/
def git_delete_branch (spawn : Except String ProcessOutput) : Except String Unit :=
  match run_git_command spawn with
  | Except.error e => Except.error e
  | Except.ok _ => Except.ok ()

/-- One cursor move, for reasoning about arbitrary sequences of
`select_next` / `select_previous` calls. -/
inductive Move where
  | next
  | prev
deriving DecidableEq, Repr

/-- Apply one cursor move. -/
def applyMove (s : BranchList) : Move → BranchList
  | Move.next => s.select_next
  | Move.prev => s.select_previous

/-- Apply a sequence of cursor moves, left to right. -/
def applyMoves (s : BranchList) : List Move → BranchList
  | [] => s
  | m :: ms => applyMoves (applyMove s m) ms

/-! ### Concrete states used by counterexamples and witnesses -/

/-- A plain unstaged branch named `a`. -/
def branchA : BranchItem :=
  BranchItem.new { name := "a", is_head := false, upstream := none } true

/-- A plain unstaged branch named `b`. -/
def branchB : BranchItem :=
  BranchItem.new { name := "b", is_head := false, upstream := none } true

/-- A plain unstaged branch named `c`. -/
def branchC : BranchItem :=
  BranchItem.new { name := "c", is_head := false, upstream := none } true

/-- The head branch named `a`. -/
def headA : BranchItem :=
  BranchItem.new { name := "a", is_head := true, upstream := none } true

/-- `branchA`, staged for deletion. -/
def stagedA : BranchItem := branchA.stage_for_deletion true

/-- `branchC`, staged for deletion. -/
def stagedC : BranchItem := branchC.stage_for_deletion true

/-- The state right after `BranchList::default()` (or a load that found no
branches): empty list, selection at 0. -/
def emptyState : BranchList :=
  { mode := Mode.Selection, error := none, branches := [], selected_index := 0 }

/-- A singleton list with its only item selected. -/
def oneState : BranchList :=
  { mode := Mode.Selection, error := none, branches := [branchA], selected_index := 0 }

/-- Two branches with the first selected. -/
def twoState : BranchList :=
  { mode := Mode.Selection, error := none, branches := [branchA, branchB], selected_index := 0 }

/-- Three unstaged branches with the middle one selected. -/
def threeState : BranchList :=
  { mode := Mode.Selection, error := none
    branches := [branchA, branchB, branchC], selected_index := 1 }

/-- The spec's batch-deletion scenario: `[A staged, B unstaged, C staged]`. -/
def stagedScenario : BranchList :=
  { mode := Mode.Selection, error := none
    branches := [stagedA, branchB, stagedC], selected_index := 0 }

/-- `[A(head), B, C]` with `B` selected (the spec's `delete_selected`
scenario). -/
def headScenario : BranchList :=
  { mode := Mode.Selection, error := none
    branches := [headA, branchB, branchC], selected_index := 1 }

/-- `[A(head), B, C]` with the head item `A` selected. -/
def headSelState : BranchList :=
  { mode := Mode.Selection, error := none
    branches := [headA, branchB, branchC], selected_index := 0 }

/-- A process output with a non-success exit status but empty stderr. -/
def gitOut : ProcessOutput :=
  { status_success := false, stdout := "out", stderr := "" }

/-! ### Small projection equations (definitional) -/

/-- The list produced by `delete_staged_branches`, spelled out. -/
theorem delete_staged_branches_branches (s : BranchList) (delete_ok : Nat → Bool) :
    (s.delete_staged_branches delete_ok).1.branches
      = ((List.range s.branches.length).filter fun i =>
          stagedAt s.branches i && delete_ok i).reverse.foldl List.eraseIdx s.branches := rfl

/-- The selection fixup of `delete_staged_branches`, spelled out in terms of
the resulting list. -/
theorem delete_staged_branches_selected (s : BranchList) (delete_ok : Nat → Bool) :
    (s.delete_staged_branches delete_ok).1.selected_index
      = if (s.delete_staged_branches delete_ok).1.branches.length ≤ s.selected_index then
          usub1 (s.delete_staged_branches delete_ok).1.branches.length
        else if s.selected_index ≠ 0 then usub1 s.selected_index
        else s.selected_index := rfl

/-! ### Claim C1 -/

/-- C1 (code-bug evidence): the claim (and spec §4.1) says both cursor moves
are no-ops on an empty list, but `select_previous` on the empty-list state
computes `branches.len() - 1` with `len() = 0`, wrapping the `usize` to
`2 ^ 64 - 1` (a debug build panics at this subtraction), so the state is
changed, not preserved.  (`select_next` on the same state does happen to be a
no-op: its out-of-range branch resets the index to 0.) -/
theorem C1_select_previous_empty_underflows :
    emptyState.select_previous.selected_index = 2 ^ 64 - 1 ∧
    emptyState.selected_index = 0 ∧
    emptyState.select_previous ≠ emptyState ∧
    emptyState.select_next = emptyState := by
  refine ⟨by decide, rfl, by decide, by decide⟩

/-! ### Claim C7 -/

/-- C7: staging or unstaging is rejected silently when the selected item is
the head branch: the whole state is unchanged, so the selected item's
`staged_for_deletion` flag keeps its prior value and a head item can never
become staged through this operation. -/
theorem C7_stage_head_noop (s : BranchList) (b : BranchItem) (stage : Bool)
    (hsel : s.branches[s.selected_index]? = some b)
    (hhead : b.branch.is_head = true) :
    s.stage_selected_for_deletion stage = s := by
  unfold BranchList.stage_selected_for_deletion
  rw [hsel]
  simp [hhead]

/-- Witness for C7 at `[A(head), B, C]` with the head item selected. -/
theorem C7_witness :
    headSelState.branches[headSelState.selected_index]? = some headA ∧
    headA.branch.is_head = true ∧
    headSelState.stage_selected_for_deletion true = headSelState :=
  ⟨by decide, by decide, C7_stage_head_noop headSelState headA true (by decide) (by decide)⟩

/-! ### Claim C3 -/

/-- C3 counterexample: the first branch of `twoState` is selected and its
backend deletion fails, yet after the full dispatch (`deleted_selected`
followed by `maybe_handle_git_error`) the error slot is still `none` — not
the failure message the claim promises — because `deleted_selected` swallows
the failure and returns `Ok(())`.  (The list is indeed unchanged.) -/
theorem C3_counterexample :
    (twoState.branches[twoState.selected_index]?).isSome = true ∧
    twoState.update_delete_branch false = twoState ∧
    (twoState.update_delete_branch false).error = none := by
  refine ⟨by decide, by decide, by decide⟩

/-- C3 amended: when the backend deletion of the selected item fails, the
whole state — items, `selected_index`, and also the error slot — is left
unchanged: the failure is silently swallowed (`deleted_selected` returns
`Ok(())` on its failure path), nothing is surfaced, and the same deletion can
be retried. -/
theorem C3_delete_failure_silent (s : BranchList) (b : BranchItem)
    (hsel : s.branches[s.selected_index]? = some b) :
    s.update_delete_branch false = s := by
  unfold BranchList.update_delete_branch BranchList.deleted_selected
  rw [hsel]
  simp [BranchList.maybe_handle_git_error]

/-- Witness for the amended C3. -/
theorem C3_amended_witness :
    twoState.branches[twoState.selected_index]? = some branchA ∧
    twoState.update_delete_branch false = twoState :=
  ⟨by decide, C3_delete_failure_silent twoState branchA (by decide)⟩

/-! ### Claim C10 -/

/-- C10: `run_git_command` treats a process whose exit status is unsuccessful
but whose stderr is empty as a SUCCESS, returning the stdout (and so does
`git_delete_branch`, built on it); an error value is produced only when the
exit status is unsuccessful AND stderr is non-empty. -/
theorem C10_empty_stderr_is_success (out : ProcessOutput) :
    (out.status_success = false → out.stderr = "" →
      run_git_command (Except.ok out) = Except.ok out.stdout ∧
      git_delete_branch (Except.ok out) = Except.ok ()) ∧
    (∀ e, run_git_command (Except.ok out) = Except.error e →
      out.status_success = false ∧ out.stderr ≠ "") := by
  constructor
  · intro hs he
    constructor
    · simp [run_git_command, hs, he]
    · simp [git_delete_branch, run_git_command, hs, he]
  · intro e h
    by_cases hs : out.status_success
    · simp [run_git_command, hs] at h
    · by_cases he : out.stderr = ""
      · simp [run_git_command, hs, he] at h
      · exact ⟨by simpa using hs, he⟩

/-- Witness for C10 at a failed exit with empty stderr. -/
theorem C10_witness :
    gitOut.status_success = false ∧ gitOut.stderr = "" ∧
    run_git_command (Except.ok gitOut) = Except.ok gitOut.stdout :=
  ⟨rfl, rfl, ((C10_empty_stderr_is_success gitOut).1 rfl rfl).1⟩

/-! ### Claim C2 -/

/-- C2 counterexample: in `threeState` nothing is staged, so the pass removes
nothing and the resulting list (length 3) is non-empty; yet `selected_index`
drops from 1 to 0 although `min(old index, new length - 1) = min 1 2 = 1` —
the fixup decrements an in-range nonzero index instead of clamping it. -/
theorem C2_counterexample :
    (threeState.delete_staged_branches fun _ => true).1.branches = threeState.branches ∧
    (threeState.delete_staged_branches fun _ => true).1.selected_index = 0 ∧
    min threeState.selected_index
        ((threeState.delete_staged_branches fun _ => true).1.branches.length - 1) = 1 := by
  refine ⟨by decide, by decide, by decide⟩

/-- The selection fixup of `delete_staged_branches` keeps the index in range
whenever the list it is applied to is non-empty. -/
theorem delete_staged_fixup_lt (l : List BranchItem) (i : Nat) (h : l ≠ []) :
    (if l.length ≤ i then usub1 l.length
     else if i ≠ 0 then usub1 i else i) < l.length := by
  have hl : 0 < l.length := List.length_pos.mpr h
  by_cases h1 : l.length ≤ i
  · rw [if_pos h1]
    unfold usub1
    rw [if_neg (Nat.pos_iff_ne_zero.mp hl)]
    omega
  · rw [if_neg h1]
    by_cases h2 : i ≠ 0
    · rw [if_pos h2]
      unfold usub1
      rw [if_neg h2]
      omega
    · rw [if_neg h2]
      omega

/-- C2 amended: after `delete_staged_branches`, whenever the resulting list is
non-empty the selection is in range `[0, new length)` — though it is not in
general `min(old index, new length - 1)`: an in-range nonzero index gets
decremented by one.  When the resulting list is empty there is no current item
(and the index has wrapped to `2 ^ 64 - 1`); in every case the method
terminates normally, returning `Ok(())`. -/
theorem C2_delete_staged_selection_in_range (s : BranchList) (delete_ok : Nat → Bool) :
    ((s.delete_staged_branches delete_ok).1.branches ≠ [] →
      (s.delete_staged_branches delete_ok).1.selected_index <
        (s.delete_staged_branches delete_ok).1.branches.length) ∧
    ((s.delete_staged_branches delete_ok).1.branches = [] →
      (s.delete_staged_branches delete_ok).1.get_selected_branch = none) ∧
    (s.delete_staged_branches delete_ok).2 = Except.ok () := by
  refine ⟨?_, ?_, rfl⟩
  · intro hne
    rw [delete_staged_branches_selected]
    exact delete_staged_fixup_lt _ _ hne
  · intro hemp
    unfold BranchList.get_selected_branch
    rw [hemp]
    exact List.getElem?_nil

/-- Witness for the amended C2 on the `[A, B, C]` state. -/
theorem C2_amended_witness :
    (threeState.delete_staged_branches fun _ => true).1.branches ≠ [] ∧
    (threeState.delete_staged_branches fun _ => true).1.selected_index <
      (threeState.delete_staged_branches fun _ => true).1.branches.length :=
  ⟨by decide,
    (C2_delete_staged_selection_in_range threeState fun _ => true).1 (by decide)⟩

/-! ### Claim C9 -/

/-- C9 counterexample: on the singleton list `[A]` with `A` selected, a
successful `deleted_selected` empties the list and the fixup computes
`selected_index -= 1` from 0, wrapping the `usize` to `2 ^ 64 - 1` (a debug
build panics) — which is not `min(old index, new length - 1)` under any
reading of that expression over the naturals. -/
theorem C9_counterexample :
    oneState.branches[oneState.selected_index]? = some branchA ∧
    (oneState.deleted_selected true).1.branches = [] ∧
    (oneState.deleted_selected true).1.selected_index = 2 ^ 64 - 1 ∧
    (oneState.deleted_selected true).1.selected_index ≠
      min oneState.selected_index
        ((oneState.deleted_selected true).1.branches.length - 1) := by
  refine ⟨by decide, by decide, by decide, by decide⟩

/-- C9 amended: when the selected item's backend deletion succeeds AND the
list held at least two items, `deleted_selected` removes exactly the selected
item (`eraseIdx` at the selection) and sets `selected_index` to
`min(old index, new length - 1)`, which is in range; on a singleton list the
index instead wraps to `2 ^ 64 - 1`, leaving no current item. -/
theorem C9_delete_selected_success (s : BranchList) (b : BranchItem)
    (hsel : s.branches[s.selected_index]? = some b)
    (hlen : 2 ≤ s.branches.length) :
    (s.deleted_selected true).1.branches = s.branches.eraseIdx s.selected_index ∧
    (s.deleted_selected true).1.selected_index =
      min s.selected_index ((s.deleted_selected true).1.branches.length - 1) ∧
    (s.deleted_selected true).1.selected_index <
      (s.deleted_selected true).1.branches.length ∧
    (s.deleted_selected true).2 = Except.ok () := by
  have hi : s.selected_index < s.branches.length := (List.getElem?_eq_some.mp hsel).1
  have hlen' : (s.branches.eraseIdx s.selected_index).length = s.branches.length - 1 := by
    rw [List.length_eraseIdx, if_pos hi]
  have hbr : (s.deleted_selected true).1.branches = s.branches.eraseIdx s.selected_index := by
    unfold BranchList.deleted_selected
    rw [hsel]
    rfl
  have hsel' : (s.deleted_selected true).1.selected_index =
      if s.branches.length - 1 ≤ s.selected_index then usub1 s.selected_index
      else s.selected_index := by
    unfold BranchList.deleted_selected
    rw [hsel]
    simp [hlen']
  have hres : (s.deleted_selected true).2 = Except.ok () := by
    unfold BranchList.deleted_selected
    rw [hsel]
    rfl
  refine ⟨hbr, ?_, ?_, hres⟩
  · rw [hsel', hbr, hlen']
    by_cases hlast : s.branches.length - 1 ≤ s.selected_index
    · rw [if_pos hlast]
      have hne : s.selected_index ≠ 0 := by omega
      unfold usub1
      rw [if_neg hne]
      omega
    · rw [if_neg hlast]
      omega
  · rw [hsel', hbr, hlen']
    by_cases hlast : s.branches.length - 1 ≤ s.selected_index
    · rw [if_pos hlast]
      have hne : s.selected_index ≠ 0 := by omega
      unfold usub1
      rw [if_neg hne]
      omega
    · rw [if_neg hlast]
      omega

/-- Witness for the amended C9: the spec's `[A(head), B, C]` scenario with `B`
selected and the deletion succeeding. -/
theorem C9_witness :
    headScenario.branches[headScenario.selected_index]? = some branchB ∧
    2 ≤ headScenario.branches.length ∧
    (headScenario.deleted_selected true).1.branches =
      headScenario.branches.eraseIdx headScenario.selected_index ∧
    (headScenario.deleted_selected true).1.branches = [headA, branchC] ∧
    (headScenario.deleted_selected true).1.selected_index = 1 :=
  ⟨by decide, by decide,
    (C9_delete_selected_success headScenario branchB (by decide) (by decide)).1,
    by decide, by decide⟩

/-! ### Claim C6 -/

/-- `select_next` never touches the list. -/
theorem select_next_branches (s : BranchList) : s.select_next.branches = s.branches := by
  unfold BranchList.select_next
  split
  · rfl
  · split <;> rfl

/-- `select_previous` never touches the list. -/
theorem select_previous_branches (s : BranchList) :
    s.select_previous.branches = s.branches := by
  unfold BranchList.select_previous
  split
  · rfl
  · split <;> rfl

/-- On an in-range selection, `usub1 len` is the honest `len - 1`. -/
theorem usub1_length_of_pos (n : Nat) (h : 0 < n) : usub1 n = n - 1 := by
  unfold usub1
  rw [if_neg (Nat.pos_iff_ne_zero.mp h)]

/-- `select_next` keeps an in-range selection in range. -/
theorem select_next_lt (s : BranchList) (h : s.selected_index < s.branches.length) :
    s.select_next.selected_index < s.branches.length := by
  have hpos : 0 < s.branches.length := Nat.lt_of_le_of_lt (Nat.zero_le _) h
  have hu : usub1 s.branches.length = s.branches.length - 1 := usub1_length_of_pos _ hpos
  unfold BranchList.select_next
  by_cases h1 : s.selected_index = usub1 s.branches.length
  · rw [if_pos h1]
    exact hpos
  · rw [if_neg h1, if_neg (Nat.not_le.mpr h)]
    rw [hu] at h1
    show s.selected_index + 1 < s.branches.length
    omega

/-- `select_previous` keeps an in-range selection in range. -/
theorem select_previous_lt (s : BranchList) (h : s.selected_index < s.branches.length) :
    s.select_previous.selected_index < s.branches.length := by
  have hpos : 0 < s.branches.length := Nat.lt_of_le_of_lt (Nat.zero_le _) h
  have hu : usub1 s.branches.length = s.branches.length - 1 := usub1_length_of_pos _ hpos
  unfold BranchList.select_previous
  by_cases h1 : s.selected_index = 0
  · rw [if_pos h1, hu]
    show s.branches.length - 1 < s.branches.length
    omega
  · rw [if_neg h1, if_neg (Nat.not_le.mpr h)]
    unfold usub1
    rw [if_neg h1]
    show s.selected_index - 1 < s.branches.length
    omega

/-- Any sequence of cursor moves preserves the list and keeps an in-range
selection in range. -/
theorem applyMoves_invariant (ms : List Move) (s : BranchList)
    (hsel : s.selected_index < s.branches.length) :
    (applyMoves s ms).branches = s.branches ∧
    (applyMoves s ms).selected_index < s.branches.length := by
  induction ms generalizing s with
  | nil => exact ⟨rfl, hsel⟩
  | cons m rest ih =>
    cases m with
    | next =>
      have hb := select_next_branches s
      have hlt := select_next_lt s hsel
      have h := ih s.select_next (by rw [hb]; exact hlt)
      exact ⟨by simpa [applyMoves, applyMove, hb] using h.1,
        by simpa [applyMoves, applyMove, hb] using h.2⟩
    | prev =>
      have hb := select_previous_branches s
      have hlt := select_previous_lt s hsel
      have h := ih s.select_previous (by rw [hb]; exact hlt)
      exact ⟨by simpa [applyMoves, applyMove, hb] using h.1,
        by simpa [applyMoves, applyMove, hb] using h.2⟩

/-- C6: on a non-empty list of length `N` with an in-range selection, every
sequence of `select_next` / `select_previous` calls leaves the list untouched
and the selection inside `[0, N)`; moreover from index `N - 1` a `select_next`
wraps to 0 and from index 0 a `select_previous` wraps to `N - 1`. -/
theorem C6_selection_wraps (s : BranchList)
    (hlen : 0 < s.branches.length)
    (hsel : s.selected_index < s.branches.length) :
    (∀ ms : List Move,
      (applyMoves s ms).branches = s.branches ∧
      (applyMoves s ms).selected_index < s.branches.length) ∧
    (s.selected_index = s.branches.length - 1 → s.select_next.selected_index = 0) ∧
    (s.selected_index = 0 →
      s.select_previous.selected_index = s.branches.length - 1) := by
  have hu : usub1 s.branches.length = s.branches.length - 1 := usub1_length_of_pos _ hlen
  refine ⟨fun ms => applyMoves_invariant ms s hsel, ?_, ?_⟩
  · intro hlast
    unfold BranchList.select_next
    rw [if_pos (by rw [hu]; exact hlast)]
  · intro hzero
    unfold BranchList.select_previous
    rw [if_pos hzero, hu]

/-- Witness for C6 on `[A, B, C]` with index 1: a `next, next, prev, prev`
walk stays in range, and the wrap equations hold at the boundary states. -/
theorem C6_witness :
    0 < threeState.branches.length ∧
    threeState.selected_index < threeState.branches.length ∧
    (applyMoves threeState [Move.next, Move.next, Move.prev, Move.prev]).selected_index <
      threeState.branches.length :=
  ⟨by decide, by decide,
    ((C6_selection_wraps threeState (by decide) (by decide)).1
      [Move.next, Move.next, Move.prev, Move.prev]).2⟩

/-! ### Claim C4: general lemmas about back-to-front index removal -/

/-- Erasing the last position of `l ++ [x]` gives back `l`. -/
theorem eraseIdx_concat {α : Type _} (l : List α) (x : α) :
    (l ++ [x]).eraseIdx l.length = l := by
  induction l with
  | nil => rfl
  | cons a as ih => simpa [List.eraseIdx_cons_succ] using ih

/-- Erasing a strictly decreasing run of indexes that all land inside `l`
never touches a trailing element. -/
theorem foldl_eraseIdx_concat {α : Type _} (is : List Nat) (l : List α) (x : α)
    (hdec : List.Pairwise (fun a b => b < a) is)
    (hb : ∀ i ∈ is, i < l.length) :
    is.foldl List.eraseIdx (l ++ [x]) = (is.foldl List.eraseIdx l) ++ [x] := by
  induction is generalizing l with
  | nil => rfl
  | cons i rest ih =>
    have hi : i < l.length := hb i (List.mem_cons_self i rest)
    have h1 : (l ++ [x]).eraseIdx i = l.eraseIdx i ++ [x] :=
      List.eraseIdx_append_of_lt_length hi [x]
    have hrest := List.pairwise_cons.mp hdec
    have hlen : (l.eraseIdx i).length = l.length - 1 := by
      rw [List.length_eraseIdx, if_pos hi]
    simp only [List.foldl_cons, h1]
    exact ih (l.eraseIdx i) hrest.2 fun j hj => by
      have hji : j < i := hrest.1 j hj
      rw [hlen]
      omega

/-- Removing, back-to-front, the indexes of `l` selected by `q` (collected in
increasing order, as `delete_staged_branches` collects them) produces exactly
the elements whose index fails `q`, in their original order. -/
theorem foldl_eraseIdx_reverse_filter_range {α : Type _} (q : Nat → Bool) (l : List α) :
    ((List.range l.length).filter q).reverse.foldl List.eraseIdx l
      = (List.range l.length).filterMap fun i => if q i then none else l[i]? := by
  induction l using List.reverseRecOn with
  | nil => rfl
  | append_singleton l x ih =>
    have hlen : (l ++ [x]).length = l.length + 1 := by simp
    have hcongr : ((List.range l.length).filterMap fun i =>
          if q i then none else (l ++ [x])[i]?)
        = (List.range l.length).filterMap fun i => if q i then none else l[i]? :=
      List.filterMap_congr fun i hi => by
        rw [List.getElem?_append_left (List.mem_range.mp hi)]
    rw [hlen, List.range_succ, List.filter_append, List.reverse_append,
        List.filterMap_append, List.foldl_append, hcongr]
    by_cases hq : q l.length
    · have hf : List.filter q [l.length] = [l.length] := by simp [hq]
      rw [hf]
      have hinner : [l.length].reverse.foldl List.eraseIdx (l ++ [x]) = l := by
        simp only [List.reverse_singleton, List.foldl_cons, List.foldl_nil]
        exact eraseIdx_concat l x
      rw [hinner, ih]
      have hnone : List.filterMap (fun i => if q i then none else (l ++ [x])[i]?)
          [l.length] = [] := by
        simp [hq]
      rw [hnone, List.append_nil]
    · have hf : List.filter q [l.length] = [] := by simp [hq]
      rw [hf]
      simp only [List.reverse_nil, List.foldl_nil]
      have hdec : List.Pairwise (fun a b => b < a)
          ((List.range l.length).filter q).reverse :=
        List.pairwise_reverse.mpr ((List.pairwise_lt_range l.length).filter q)
      have hb : ∀ i ∈ ((List.range l.length).filter q).reverse, i < l.length := by
        intro i hi
        rw [List.mem_reverse] at hi
        exact List.mem_range.mp (List.mem_of_mem_filter hi)
      rw [foldl_eraseIdx_concat _ l x hdec hb, ih]
      have hsome : List.filterMap (fun i => if q i then none else (l ++ [x])[i]?)
          [l.length] = [x] := by
        simp [hq, List.getElem?_concat_length]
      rw [hsome]

/-- C4: `delete_staged_branches` keeps exactly the items whose index is not
"staged with a successful deletion", in their original order and with their
fields untouched (a failed item keeps its `staged_for_deletion = true` flag);
in particular every staged item whose deletion failed is still present,
whatever happened at the other indexes — no failure aborts the pass.  The
spec's concrete scenario `[A staged, B unstaged, C staged]` with only C's
deletion succeeding is included: it leaves `[A staged, B]`. -/
theorem C4_delete_staged_outcomes (s : BranchList) (delete_ok : Nat → Bool) :
    ((s.delete_staged_branches delete_ok).1.branches
      = (List.range s.branches.length).filterMap fun i =>
          if stagedAt s.branches i && delete_ok i then none else s.branches[i]?) ∧
    (∀ i b, s.branches[i]? = some b → b.staged_for_deletion = true →
      delete_ok i = false → b ∈ (s.delete_staged_branches delete_ok).1.branches) ∧
    (stagedScenario.delete_staged_branches fun i => i == 2).1.branches
      = [stagedA, branchB] := by
  have hmain : (s.delete_staged_branches delete_ok).1.branches
      = (List.range s.branches.length).filterMap fun i =>
          if stagedAt s.branches i && delete_ok i then none else s.branches[i]? := by
    rw [delete_staged_branches_branches]
    exact foldl_eraseIdx_reverse_filter_range _ s.branches
  refine ⟨hmain, ?_, by decide⟩
  intro i b hib hstaged hfail
  rw [hmain]
  apply List.mem_filterMap.mpr
  refine ⟨i, List.mem_range.mpr (List.getElem?_eq_some.mp hib).1, ?_⟩
  have hq : (stagedAt s.branches i && delete_ok i) = false := by
    unfold stagedAt
    rw [hib, hfail]
    simp
  rw [hq]
  simpa using hib

/-- Witness for C4: in the `[A staged, B, C staged]` scenario where only C's
deletion succeeds, the staged item `A` (whose deletion failed) is still
present. -/
theorem C4_witness :
    stagedScenario.branches[0]? = some stagedA ∧
    stagedA.staged_for_deletion = true ∧
    ((0 : Nat) == 2) = false ∧
    stagedA ∈ (stagedScenario.delete_staged_branches fun i => i == 2).1.branches :=
  ⟨by decide, by decide, by decide,
    (C4_delete_staged_outcomes stagedScenario fun i => i == 2).2.1 0 stagedA
      (by decide) (by decide) (by decide)⟩

/-! ### Claims C5 and C8: `create_branch` -/

/-- `branchLe` is transitive (it is the name order). -/
theorem branchLe_trans (a b c : BranchItem) (h1 : branchLe a b = true)
    (h2 : branchLe b c = true) : branchLe a c = true := by
  unfold branchLe at h1 h2 ⊢
  rw [decide_eq_true_eq] at h1 h2 ⊢
  exact le_trans h1 h2

/-- `branchLe` is total. -/
theorem branchLe_total (a b : BranchItem) : (branchLe a b || branchLe b a) = true := by
  unfold branchLe
  simpa using le_total a.branch.name b.branch.name

/-- If some element of `l` satisfies `p` then `findIdx?` (with starting offset
`start`) returns an index, and the element at its offset position satisfies
`p`. -/
theorem findIdx?_exists {α : Type _} (p : α → Bool) (l : List α) (start : Nat)
    (h : ∃ x ∈ l, p x = true) :
    ∃ i y, l.findIdx? p start = some (start + i) ∧ l[i]? = some y ∧ p y = true := by
  induction l generalizing start with
  | nil =>
    obtain ⟨x, hx, _⟩ := h
    cases hx
  | cons a as ih =>
    by_cases hpa : p a = true
    · refine ⟨0, a, ?_, by simp, hpa⟩
      rw [List.findIdx?_cons, if_pos hpa, Nat.add_zero]
    · obtain ⟨x, hx, hpx⟩ := h
      have hx' : x ∈ as := by
        rcases List.mem_cons.mp hx with h1 | h1
        · exact absurd (h1 ▸ hpx) hpa
        · exact h1
      obtain ⟨i, y, h1, h2, h3⟩ := ih (start + 1) ⟨x, hx', hpx⟩
      refine ⟨i + 1, y, ?_, ?_, h3⟩
      · rw [List.findIdx?_cons, if_neg hpa, h1]
        congr 1
        omega
      · simpa using h2

/-- C5: when the backend create and the follow-up checkout both succeed and no
existing item already bears the requested name, the resulting list holds
exactly one item with that name, `is_head` is true exactly on the items named
`name`, the whole list is sorted by name, and `selected_index` points at an
item carrying the new name (which is marked head). -/
theorem C5_create_branch_success (s : BranchList) (name : String)
    (hfresh : ∀ b ∈ s.branches, b.branch.name ≠ name) :
    ((s.create_branch name (Except.ok ()) (Except.ok ())).1.branches.countP
        (fun b => b.branch.name == name) = 1) ∧
    (∀ b ∈ (s.create_branch name (Except.ok ()) (Except.ok ())).1.branches,
        b.branch.is_head = (b.branch.name == name)) ∧
    List.Pairwise (fun a b => a.branch.name ≤ b.branch.name)
      (s.create_branch name (Except.ok ()) (Except.ok ())).1.branches ∧
    (∃ b, (s.create_branch name (Except.ok ()) (Except.ok ())).1.branches[
          (s.create_branch name (Except.ok ()) (Except.ok ())).1.selected_index]?
        = some b ∧ b.branch.name = name ∧ b.branch.is_head = true) := by
  have hbr : (s.create_branch name (Except.ok ()) (Except.ok ())).1.branches
      = ((s.branches ++ [createdItem name]).mergeSort branchLe).map
          (setHeadByName name) := rfl
  have hselx : (s.create_branch name (Except.ok ()) (Except.ok ())).1.selected_index
      = ((((s.branches ++ [createdItem name]).mergeSort branchLe).map
          (setHeadByName name)).findIdx? fun b => b.branch.name == name).getD 0 := rfl
  have hperm : ((s.branches ++ [createdItem name]).mergeSort branchLe).Perm
      (s.branches ++ [createdItem name]) := List.mergeSort_perm _ _
  have hishead : ∀ b ∈ (s.create_branch name (Except.ok ()) (Except.ok ())).1.branches,
      b.branch.is_head = (b.branch.name == name) := by
    intro b hb
    rw [hbr] at hb
    obtain ⟨a, _, rfl⟩ := List.mem_map.mp hb
    rfl
  refine ⟨?_, hishead, ?_, ?_⟩
  · rw [hbr, List.countP_map]
    have e1 : List.countP
          ((fun b => b.branch.name == name) ∘ setHeadByName name)
          ((s.branches ++ [createdItem name]).mergeSort branchLe)
        = List.countP (fun b => b.branch.name == name)
          ((s.branches ++ [createdItem name]).mergeSort branchLe) := rfl
    rw [e1, hperm.countP_eq, List.countP_append]
    have h0 : List.countP (fun b => b.branch.name == name) s.branches = 0 :=
      List.countP_eq_zero.mpr fun b hb => by
        simp only [beq_iff_eq]
        exact hfresh b hb
    have h1 : List.countP (fun b => b.branch.name == name) [createdItem name] = 1 := by
      simp [createdItem, BranchItem.new]
    rw [h0, h1]
  · rw [hbr]
    have hs := @List.sorted_mergeSort BranchItem branchLe branchLe_trans branchLe_total
      (s.branches ++ [createdItem name])
    have hs' : List.Pairwise (fun a b : BranchItem => a.branch.name ≤ b.branch.name)
        ((s.branches ++ [createdItem name]).mergeSort branchLe) :=
      hs.imp fun h => by
        unfold branchLe at h
        exact decide_eq_true_eq.mp h
    exact List.Pairwise.map _ (fun a b h => h) hs'
  · have hmem : createdItem name ∈ s.branches ++ [createdItem name] := by simp
    have hmem2 : setHeadByName name (createdItem name)
        ∈ ((s.branches ++ [createdItem name]).mergeSort branchLe).map
            (setHeadByName name) :=
      List.mem_map_of_mem _ (hperm.mem_iff.mpr hmem)
    have hex : ∃ x ∈ ((s.branches ++ [createdItem name]).mergeSort branchLe).map
        (setHeadByName name), (fun b : BranchItem => b.branch.name == name) x = true :=
      ⟨setHeadByName name (createdItem name), hmem2, beq_self_eq_true name⟩
    obtain ⟨i, y, hfind, hget, hpy⟩ := findIdx?_exists _ _ 0 hex
    have hyname : y.branch.name = name := beq_iff_eq.mp hpy
    have hsel0 : (s.create_branch name (Except.ok ()) (Except.ok ())).1.selected_index
        = i := by
      rw [hselx, hfind]
      simp
    refine ⟨y, ?_, hyname, ?_⟩
    · rw [hbr, hsel0]
      exact hget
    · have hymem : y ∈ (s.create_branch name (Except.ok ()) (Except.ok ())).1.branches := by
        rw [hbr]
        exact List.getElem?_mem hget
      rw [hishead y hymem, hyname]
      exact beq_self_eq_true name

/-- Witness for C5: creating `m` on the list `[a, b]` (both names fresh). -/
theorem C5_witness :
    (∀ b ∈ twoState.branches, b.branch.name ≠ "m") ∧
    ((twoState.create_branch "m" (Except.ok ()) (Except.ok ())).1.branches.countP
        (fun b => b.branch.name == "m") = 1) :=
  ⟨by decide, (C5_create_branch_success twoState "m" (by decide)).1⟩

/-- C8: when the backend create succeeds but the follow-up checkout fails, the
newly created item is still present in the list when `create_branch` returns
(the `?` on the checkout call aborts the method AFTER the push and sort), and
the checkout failure is reported through the returned `Result`. -/
theorem C8_checkout_failure_keeps_item (s : BranchList) (name e : String) :
    (∃ b ∈ (s.create_branch name (Except.ok ()) (Except.error e)).1.branches,
        b.branch.name = name) ∧
    (s.create_branch name (Except.ok ()) (Except.error e)).2 = Except.error e := by
  have hbr : (s.create_branch name (Except.ok ()) (Except.error e)).1.branches
      = (s.branches ++ [createdItem name]).mergeSort branchLe := rfl
  refine ⟨?_, rfl⟩
  rw [hbr]
  exact ⟨createdItem name,
    (List.mergeSort_perm _ _).mem_iff.mpr (by simp), rfl⟩
